import Mathlib

/-!
# Verification of the expense dashboard feed controller

Shallow embedding of `src/components/dashboard-view.tsx`: the React state of
`DashboardView` (`expenses`, `isLoading`, `page`, `hasMore`) becomes a
`FeedState` record, and each handler (`loadExpenses`, `handleAddExpense`,
`handleUpdateExpense`, `handleDeleteExpense`, `handleScroll`) becomes a pure
function from the current state (plus the outcome the network call would have
produced, passed as an `Except` value) to the next state together with an
`Output` record of the externally visible calls the handler makes (fetch
requests, `logout`, `router.push`, toasts).

The `date` field of an expense is modelled as the millisecond timestamp that
`new Date(e.date).getTime()` yields for the stored date string, since that
number is all the component ever computes from the date.  JavaScript's
`Array.prototype.sort` is stable and is called with the comparator
`(a, b) => date(b) - date(a)`; a stable descending sort is modelled by
`List.insertionSort` with the relation `dateGE a b := b.date ≤ a.date`
(Mathlib's insertion sort is stable and agrees with every stable sort on a
given comparator).  `[...new Set(xs)]` keeps the first occurrence of each
element in insertion order, modelled by `jsSetDedup`.

State reads inside a handler are modelled as reads of the current state and
`setX` calls as updates to it, i.e. the handlers are treated as the
feed-controller operations the component implements; React's re-render and
`useCallback` closure-capture machinery is outside the embedding.
-/

namespace ExpenseFeed

/-- An expense record, as in `@/types` and the seed data: server-assigned
`_id`, description, amount (in cents, unused by the controller logic),
category label, and the date timestamp (see module docstring). -/
structure Expense where
  _id : String
  description : String
  amount : Int
  category : String
  date : Nat
  deriving DecidableEq, Repr

/-- Source: `const PAGE_SIZE = 10`. -/
def PAGE_SIZE : Nat := 10

/-- The order used by the sort comparator
`(a, b) => new Date(b.date).getTime() - new Date(a.date).getTime()`:
`a` may come before `b` exactly when `a.date ≥ b.date`. -/
def dateGE (a b : Expense) : Prop := b.date ≤ a.date

instance : DecidableRel dateGE := fun a b => Nat.decLe b.date a.date

instance : IsTotal Expense dateGE := ⟨fun a b => Nat.le_total b.date a.date⟩

instance : IsTrans Expense dateGE := ⟨fun _ _ _ h h' => Nat.le_trans h' h⟩

/-- Model of `list.sort((a, b) => new Date(b.date).getTime() - new Date(a.date).getTime())`:
stable sort, descending by date. -/
def sortExpenses (l : List Expense) : List Expense :=
  l.insertionSort dateGE

/-- The component state: `expenses`, `isLoading`, `page`, `hasMore`. -/
structure FeedState where
  expenses : List Expense
  isLoading : Bool
  page : Nat
  hasMore : Bool
  deriving DecidableEq, Repr

/-- Initial state: `useState([])`, `useState(true)`, `useState(1)`, `useState(true)`. -/
def initialState : FeedState :=
  { expenses := [], isLoading := true, page := 1, hasMore := true }

/-- Toast severity: default or `variant: "destructive"`. -/
inductive ToastVariant where
  | normal
  | destructive
  deriving DecidableEq, Repr

/-- Externally visible calls a handler makes during one invocation. -/
structure Output where
  /-- `fetchExpenses(token, page, PAGE_SIZE)` calls, as (page, pageSize). -/
  fetchCalls : List (Nat × Nat)
  /-- number of `logout()` calls -/
  logoutCalls : Nat
  /-- `router.push(...)` targets -/
  redirectCalls : List String
  /-- `toast({...})` calls by severity -/
  toastCalls : List ToastVariant
  deriving DecidableEq, Repr

/-- An invocation that touches no collaborator. -/
def emptyOutput : Output :=
  { fetchCalls := [], logoutCalls := 0, redirectCalls := [], toastCalls := [] }

/-- Model of `loadExpenses`, with the outcome of `fetchExpenses` supplied as
`fetchResult` (`.ok data` = resolved page, `.error ()` = rejected promise).
Mirrors the source: the `token && hasMore` branch issues the fetch, on
success conditionally clears `hasMore`, appends and re-sorts, and increments
`page`; on failure calls `logout()` and `router.push('/login')`; `finally`
clears `isLoading`.  With a token but `hasMore` false nothing happens; with
no token only `isLoading` is cleared. -/
def loadExpenses (token : Option String) (fetchResult : Except Unit (List Expense))
    (s : FeedState) : FeedState × Output :=
  if token.isSome then
    if s.hasMore then
      match fetchResult with
      | .ok data =>
          ({ s with
              expenses := sortExpenses (s.expenses ++ data)
              page := s.page + 1
              hasMore := if data.length < PAGE_SIZE then false else s.hasMore
              isLoading := false },
           { emptyOutput with fetchCalls := [(s.page, PAGE_SIZE)] })
      | .error _ =>
          ({ s with isLoading := false },
           { emptyOutput with
              fetchCalls := [(s.page, PAGE_SIZE)]
              logoutCalls := 1
              redirectCalls := ["/login"] })
    else (s, emptyOutput)
  else
    ({ s with isLoading := false }, emptyOutput)

/-- Model of `handleAddExpense`, with the outcome of the `addExpense` API call supplied
as `apiResult` (on success the server-returned record).  On success the new
record is prepended and the list re-sorted, and a success toast is shown; on
failure only a destructive toast.  With no token the handler just returns. -/
def handleAddExpense (token : Option String) (apiResult : Except Unit Expense)
    (s : FeedState) : FeedState × Output :=
  if token.isSome then
    match apiResult with
    | .ok newExpense =>
        ({ s with expenses := sortExpenses (newExpense :: s.expenses) },
         { emptyOutput with toastCalls := [.normal] })
    | .error _ =>
        (s, { emptyOutput with toastCalls := [.destructive] })
  else (s, emptyOutput)

/-- Model of `handleUpdateExpense`: on success every entry whose `_id` matches the
returned record is replaced by it and the list re-sorted. -/
def handleUpdateExpense (token : Option String) (apiResult : Except Unit Expense)
    (s : FeedState) : FeedState × Output :=
  if token.isSome then
    match apiResult with
    | .ok updatedExpense =>
        ({ s with
            expenses := sortExpenses (s.expenses.map fun exp =>
              if exp._id = updatedExpense._id then updatedExpense else exp) },
         { emptyOutput with toastCalls := [.normal] })
    | .error _ =>
        (s, { emptyOutput with toastCalls := [.destructive] })
  else (s, emptyOutput)

/-- Model of `handleDeleteExpense`: on success the entries whose `_id` matches are
filtered out (no re-sort). -/
def handleDeleteExpense (token : Option String) (expenseId : String)
    (apiResult : Except Unit Unit) (s : FeedState) : FeedState × Output :=
  if token.isSome then
    match apiResult with
    | .ok _ =>
        ({ s with expenses := s.expenses.filter fun exp => exp._id ≠ expenseId },
         { emptyOutput with toastCalls := [.normal] })
    | .error _ =>
        (s, { emptyOutput with toastCalls := [.destructive] })
  else (s, emptyOutput)

/-- Helper for `allCategories = useMemo(() => [...new Set(expenses.map(e => e.category))].sort(), [expenses])`.
`jsSetDedup` is `[...new Set(xs)]`: first occurrences, in insertion order. -/
def jsSetDedup : List String → List String
  | [] => []
  | a :: l => a :: jsSetDedup (l.filter fun b => b ≠ a)
termination_by l => l.length
decreasing_by
  simp only [List.length_cons]
  exact Nat.lt_succ_of_le (List.length_filter_le _ _)

/-- Model of `[...new Set(expenses.map(e => e.category))].sort()`. -/
def allCategories (expenses : List Expense) : List String :=
  (jsSetDedup (expenses.map fun e => e.category)).insertionSort (· ≤ ·)

/-- Model of `handleScroll`: when the scroll position is within 100px of the bottom
(`nearBottom`) and no fetch is outstanding and the feed is not exhausted, it
invokes `loadExpenses`; otherwise it does nothing. -/
def handleScroll (nearBottom : Bool) (token : Option String)
    (fetchResult : Except Unit (List Expense)) (s : FeedState) : FeedState × Output :=
  if nearBottom && !s.isLoading && s.hasMore then
    loadExpenses token fetchResult s
  else (s, emptyOutput)

/-- One controller operation together with the outcome its API call would
produce (the environment's choice). -/
inductive Op where
  | load (token : Option String) (res : Except Unit (List Expense))
  | add (token : Option String) (res : Except Unit Expense)
  | update (token : Option String) (res : Except Unit Expense)
  | delete (token : Option String) (expenseId : String) (res : Except Unit Unit)
  | scroll (nearBottom : Bool) (token : Option String) (res : Except Unit (List Expense))

/-- Dispatch one operation to the corresponding handler. -/
def step (s : FeedState) : Op → FeedState × Output
  | .load token res => loadExpenses token res s
  | .add token res => handleAddExpense token res s
  | .update token res => handleUpdateExpense token res s
  | .delete token expenseId res => handleDeleteExpense token expenseId res s
  | .scroll nearBottom token res => handleScroll nearBottom token res s

/-- Run a sequence of operations from a state. -/
def runOps (s : FeedState) : List Op → FeedState
  | [] => s
  | op :: ops => runOps (step s op).1 ops

/-- The ids of the entries of a list, in order. -/
def ids (l : List Expense) : List String := l.map fun e => e._id

/-- Predicate: `items` is sorted descending by date. -/
def sortedDesc (l : List Expense) : Prop := List.Sorted dateGE l

/-! ### Sample records (from the seed data), used to instantiate theorems -/

/-- Sample record, date = epoch ms of 2025-01-01. -/
def exA : Expense :=
  { _id := "a1", description := "Netflix Monthly Subscription", amount := 1599,
    category := "Entertainment", date := 1735689600000 }

/-- Sample record, date = epoch ms of 2025-01-02. -/
def exB : Expense :=
  { _id := "b2", description := "Whole Foods Grocery Shopping", amount := 8745,
    category := "Groceries", date := 1735776000000 }

/-- Sample record with the same date as `exA` but a different id. -/
def exC : Expense :=
  { _id := "c3", description := "Starbucks Coffee", amount := 575,
    category := "Dining Out", date := 1735689600000 }

/-- A full page of `PAGE_SIZE` records with pairwise distinct ids. -/
def tenPage : List Expense :=
  (List.range PAGE_SIZE).map fun i =>
    { _id := "p" ++ toString i, description := "seed", amount := 100,
      category := "Seed", date := 1000 + i }

/-- Freshness of the records the environment hands back in one operation:
a fetched page carries pairwise-distinct ids, none already in `items`, and a
record returned by a successful add carries an id not already in `items`.
(The component itself never checks this; it is the hypothesis under which the
no-duplicate invariant holds.) -/
def freshIds (s : FeedState) : Op → Prop
  | .load _ (.ok data) => (ids data).Nodup ∧ ∀ i ∈ ids data, i ∉ ids s.expenses
  | .scroll _ _ (.ok data) => (ids data).Nodup ∧ ∀ i ∈ ids data, i ∉ ids s.expenses
  | .add _ (.ok e) => e._id ∉ ids s.expenses
  | _ => True

instance freshIdsDecidable (s : FeedState) : (op : Op) → Decidable (freshIds s op)
  | .load _ (.ok _) => inferInstanceAs (Decidable (_ ∧ _))
  | .load _ (.error _) => inferInstanceAs (Decidable True)
  | .scroll _ _ (.ok _) => inferInstanceAs (Decidable (_ ∧ _))
  | .scroll _ _ (.error _) => inferInstanceAs (Decidable True)
  | .add _ (.ok _) => inferInstanceAs (Decidable (_ ∉ _))
  | .add _ (.error _) => inferInstanceAs (Decidable True)
  | .update _ _ => inferInstanceAs (Decidable True)
  | .delete _ _ _ => inferInstanceAs (Decidable True)

/-- Every operation of a trace satisfies `freshIds` at the state it runs in. -/
def okTrace : FeedState → List Op → Prop
  | _, [] => True
  | s, op :: ops => freshIds s op ∧ okTrace (step s op).1 ops

instance okTraceDecidable : (s : FeedState) → (ops : List Op) → Decidable (okTrace s ops)
  | _, [] => .isTrue trivial
  | s, op :: ops =>
      have : Decidable (okTrace (step s op).1 ops) := okTraceDecidable _ _
      inferInstanceAs (Decidable (_ ∧ _))

/-- The fetch requests issued by a run of consecutive successful page loads
(token present, every fetch resolving), in order of invocation. -/
def loadTrace (tok : String) (s : FeedState) : List (List Expense) → List (Nat × Nat)
  | [] => []
  | d :: rest =>
      (loadExpenses (some tok) (.ok d) s).2.fetchCalls
        ++ loadTrace tok (loadExpenses (some tok) (.ok d) s).1 rest

end ExpenseFeed

namespace ExpenseFeed

/-! ### Helper lemmas -/

theorem loadTrace_pages (tok : String) (pages : List (List Expense)) :
    ∀ s : FeedState, s.hasMore = true →
      (∀ d ∈ pages.dropLast, PAGE_SIZE ≤ d.length) →
      loadTrace tok s pages = (List.range pages.length).map fun i => (s.page + i, PAGE_SIZE) := by
  induction pages with
  | nil => intro s _ _; rfl
  | cons d rest ih =>
    intro s hm hfull
    have hcalls : (loadExpenses (some tok) (.ok d) s).2.fetchCalls = [(s.page, PAGE_SIZE)] := by
      simp [loadExpenses, hm]
    have hpage : (loadExpenses (some tok) (.ok d) s).1.page = s.page + 1 := by
      simp [loadExpenses, hm]
    cases rest with
    | nil =>
      simp [loadTrace, hcalls, List.range_succ]
    | cons r rs =>
      have hd : PAGE_SIZE ≤ d.length := hfull d (by simp [List.dropLast])
      have hm' : (loadExpenses (some tok) (.ok d) s).1.hasMore = true := by
        simp [loadExpenses, hm, Nat.not_lt.mpr hd]
      have hrest : ∀ x ∈ (r :: rs).dropLast, PAGE_SIZE ≤ x.length := by
        intro x hx
        exact hfull x (by simp [List.dropLast]; right; simpa using hx)
      have htail := ih (loadExpenses (some tok) (.ok d) s).1 hm' hrest
      rw [loadTrace, hcalls, htail, hpage]
      have hshift : ∀ i : Nat, s.page + 1 + i = s.page + (i + 1) := fun i => by omega
      simp [List.range_succ_eq_map, List.map_map, Function.comp, hshift]

/-! ### Theorems -/

/-- C9: with no auth token, `loadExpenses` sets `loading` to false, issues no
request and no logout/redirect/toast, and leaves `items`, `cursor` and
`exhausted` unchanged (and, being total, raises no error). -/
theorem load_no_token_noop (s : FeedState) (res : Except Unit (List Expense)) :
    (loadExpenses none res s).1.expenses = s.expenses ∧
    (loadExpenses none res s).1.page = s.page ∧
    (loadExpenses none res s).1.hasMore = s.hasMore ∧
    (loadExpenses none res s).1.isLoading = false ∧
    (loadExpenses none res s).2 = emptyOutput :=
  ⟨rfl, rfl, rfl, rfl, rfl⟩

/-- C6: a failing mutation (add, update or delete) leaves the whole state —
in particular `items`, `cursor`, `exhausted` — unchanged, and its only
externally visible effect is one destructive (non-fatal) toast: no fetch, no
logout, no redirect. -/
theorem mutation_failure_unchanged (tok : String) (expenseId : String) (s : FeedState) :
    handleAddExpense (some tok) (.error ()) s
      = (s, { emptyOutput with toastCalls := [.destructive] }) ∧
    handleUpdateExpense (some tok) (.error ()) s
      = (s, { emptyOutput with toastCalls := [.destructive] }) ∧
    handleDeleteExpense (some tok) expenseId (.error ()) s
      = (s, { emptyOutput with toastCalls := [.destructive] }) :=
  ⟨rfl, rfl, rfl⟩

/-- C7: a successful delete filters out exactly the entries whose `_id`
matches: the result is the filtered list, an entry is kept iff it was present
and its id differs, the survivors keep their relative order (sublist), and if
no entry had the id the list is unchanged; `cursor` and `exhausted` are
untouched. -/
theorem remove_expense_exact (tok expenseId : String) (s : FeedState) :
    (handleDeleteExpense (some tok) expenseId (.ok ()) s).1.expenses
        = (s.expenses.filter fun e => e._id ≠ expenseId) ∧
    (∀ e, e ∈ (handleDeleteExpense (some tok) expenseId (.ok ()) s).1.expenses
        ↔ e ∈ s.expenses ∧ e._id ≠ expenseId) ∧
    List.Sublist (handleDeleteExpense (some tok) expenseId (.ok ()) s).1.expenses s.expenses ∧
    ((∀ e ∈ s.expenses, e._id ≠ expenseId) →
      (handleDeleteExpense (some tok) expenseId (.ok ()) s).1.expenses = s.expenses) ∧
    (handleDeleteExpense (some tok) expenseId (.ok ()) s).1.page = s.page ∧
    (handleDeleteExpense (some tok) expenseId (.ok ()) s).1.hasMore = s.hasMore := by
  refine ⟨rfl, ?_, ?_, ?_, rfl, rfl⟩
  · intro e
    simp [handleDeleteExpense, List.mem_filter]
  · exact List.filter_sublist _
  · intro h
    simp only [handleDeleteExpense, Option.isSome_some, if_pos]
    exact List.filter_eq_self.mpr fun e he => by simpa using h e he

/-- Witness for C7: deleting an id that is absent leaves `items` unchanged. -/
theorem remove_expense_exact_witness :
    (handleDeleteExpense (some "t") "zz" (.ok ())
        { initialState with expenses := [exA, exB] }).1.expenses = [exA, exB] :=
  (remove_expense_exact "t" "zz" { initialState with expenses := [exA, exB] }).2.2.2.1
    (by decide)

/-- C5: a failing page load (token present, not exhausted) calls `logout`
exactly once, pushes `/login` once, issues exactly one fetch (no retry), shows
no toast, and ends with `loading = false` and `items`/`cursor`/`exhausted`
unchanged; a successful load also ends with `loading = false`; and once logged
out (token absent) no fetch is attempted. -/
theorem load_failure_logout_once (tok : String) (s : FeedState) (h : s.hasMore = true) :
    (loadExpenses (some tok) (.error ()) s
      = ({ s with isLoading := false },
         { emptyOutput with
            fetchCalls := [(s.page, PAGE_SIZE)]
            logoutCalls := 1
            redirectCalls := ["/login"] })) ∧
    (∀ data, (loadExpenses (some tok) (.ok data) s).1.isLoading = false) ∧
    (∀ (s' : FeedState) (res : Except Unit (List Expense)),
      (loadExpenses none res s').2.fetchCalls = []) := by
  refine ⟨?_, fun data => ?_, fun s' res => rfl⟩
  · simp [loadExpenses, h]
  · simp [loadExpenses, h]

/-- Witness for C5 at a concrete state: the initial state with a token and a
rejected fetch produces one logout, one redirect and one fetch call. -/
theorem load_failure_logout_once_witness :
    loadExpenses (some "t") (.error ()) initialState
      = ({ initialState with isLoading := false },
         { emptyOutput with
            fetchCalls := [(1, PAGE_SIZE)]
            logoutCalls := 1
            redirectCalls := ["/login"] }) :=
  (load_failure_logout_once "t" initialState rfl).1

/-- C1: a successful load (token present, not exhausted) requests exactly page
`cursor` of size `PAGE_SIZE`, appends the returned items to `items` (then
re-sorts), and increments `cursor`; consequently a session of consecutive
successful loads from the initial state issues requests for pages 1, 2, 3, …:
the n-th successful load requests page n. -/
theorem load_success_requests_cursor (tok : String) (data : List Expense) (s : FeedState)
    (hm : s.hasMore = true) :
    ((loadExpenses (some tok) (.ok data) s).2.fetchCalls = [(s.page, PAGE_SIZE)] ∧
     (loadExpenses (some tok) (.ok data) s).1.expenses = sortExpenses (s.expenses ++ data) ∧
     (loadExpenses (some tok) (.ok data) s).1.page = s.page + 1) ∧
    (∀ pages : List (List Expense), (∀ d ∈ pages.dropLast, PAGE_SIZE ≤ d.length) →
      loadTrace tok initialState pages
        = (List.range pages.length).map fun i => (i + 1, PAGE_SIZE)) := by
  constructor
  · refine ⟨?_, ?_, ?_⟩ <;> simp [loadExpenses, hm]
  · intro pages hfull
    have h := loadTrace_pages tok pages initialState rfl hfull
    simpa [Nat.add_comm] using h

/-- Witness for C1: one full page then a short page, loaded from the initial
state, requests page 1 then page 2. -/
theorem load_success_requests_cursor_witness :
    initialState.hasMore = true ∧
    loadTrace "t" initialState [tenPage, [exA]]
      = (List.range 2).map fun i => (i + 1, PAGE_SIZE) :=
  ⟨rfl,
   (load_success_requests_cursor "t" [] initialState rfl).2 [tenPage, [exA]] (by decide)⟩

/-- One operation never turns `hasMore` back on once it is false. -/
theorem step_hasMore_mono (s : FeedState) (op : Op) (h : s.hasMore = false) :
    (step s op).1.hasMore = false := by
  cases op with
  | load token res =>
    cases token <;> cases res <;> simp [step, loadExpenses, h]
  | add token res =>
    cases token <;> cases res <;> simp [step, handleAddExpense, h]
  | update token res =>
    cases token <;> cases res <;> simp [step, handleUpdateExpense, h]
  | delete token expenseId res =>
    cases token <;> cases res <;> simp [step, handleDeleteExpense, h]
  | scroll nb token res =>
    simp [step, handleScroll, h]

/-- C4: a page shorter than `PAGE_SIZE` turns `hasMore` off; once off, no
sequence of further operations ever turns it back on; and a scroll event in
the exhausted state is a complete no-op — in particular it issues no fetch. -/
theorem exhausted_permanent :
    (∀ (tok : String) (data : List Expense) (s : FeedState), data.length < PAGE_SIZE →
      (loadExpenses (some tok) (.ok data) s).1.hasMore = false) ∧
    (∀ (s : FeedState) (ops : List Op), s.hasMore = false →
      (runOps s ops).hasMore = false) ∧
    (∀ (s : FeedState) (nb : Bool) (tok : Option String)
        (res : Except Unit (List Expense)), s.hasMore = false →
      handleScroll nb tok res s = (s, emptyOutput)) := by
  refine ⟨fun tok data s hlen => ?_, fun s ops => ?_, fun s nb tok res h => ?_⟩
  · by_cases hm : s.hasMore = true
    · simp [loadExpenses, hm, hlen]
    · simp only [Bool.not_eq_true] at hm
      simp [loadExpenses, hm]
  · induction ops generalizing s with
    | nil => intro h; exact h
    | cons op ops ih =>
      intro h
      exact ih (step s op).1 (step_hasMore_mono s op h)
  · simp [handleScroll, h]

/-- Any invocation of `loadExpenses` leaves `items` sorted descending, given
that it was sorted before. -/
theorem loadExpenses_sorted (token : Option String) (res : Except Unit (List Expense))
    (s : FeedState) (h : sortedDesc s.expenses) :
    sortedDesc (loadExpenses token res s).1.expenses := by
  cases token with
  | none => exact h
  | some tok =>
    cases res with
    | ok data =>
      by_cases hm : s.hasMore = true
      · simpa [loadExpenses, hm, sortedDesc, sortExpenses] using
          List.sorted_insertionSort dateGE (s.expenses ++ data)
      · simp only [Bool.not_eq_true] at hm
        simpa [loadExpenses, hm] using h
    | error e =>
      by_cases hm : s.hasMore = true
      · simpa [loadExpenses, hm] using h
      · simp only [Bool.not_eq_true] at hm
        simpa [loadExpenses, hm] using h

/-- Every operation leaves `items` sorted descending, given that it was
sorted before. -/
theorem step_sorted (s : FeedState) (op : Op) (h : sortedDesc s.expenses) :
    sortedDesc (step s op).1.expenses := by
  cases op with
  | load token res => exact loadExpenses_sorted token res s h
  | add token res =>
    cases token with
    | none => exact h
    | some tok =>
      cases res with
      | ok e =>
        simpa [step, handleAddExpense, sortedDesc, sortExpenses] using
          List.sorted_insertionSort dateGE (e :: s.expenses)
      | error e => exact h
  | update token res =>
    cases token with
    | none => exact h
    | some tok =>
      cases res with
      | ok e =>
        simpa [step, handleUpdateExpense, sortedDesc, sortExpenses] using
          List.sorted_insertionSort dateGE (s.expenses.map fun exp =>
            if exp._id = e._id then e else exp)
      | error e => exact h
  | delete token expenseId res =>
    cases token with
    | none => exact h
    | some tok =>
      cases res with
      | ok u =>
        simp only [step, handleDeleteExpense, Option.isSome_some, if_pos]
        exact List.Pairwise.sublist (List.filter_sublist _) h
      | error e => exact h
  | scroll nb token res =>
    by_cases hg : (nb && !s.isLoading && s.hasMore) = true
    · simpa [step, handleScroll, hg] using loadExpenses_sorted token res s h
    · simp only [Bool.not_eq_true] at hg
      simpa [step, handleScroll, hg] using h

/-- Sorting is a permutation, so it neither creates nor removes duplicate
ids. -/
theorem nodup_ids_sortExpenses (l : List Expense) :
    (ids (sortExpenses l)).Nodup ↔ (ids l).Nodup := by
  unfold ids sortExpenses
  exact ((List.perm_insertionSort dateGE l).map fun e => e._id).nodup_iff

/-- An invocation of `loadExpenses` preserves distinctness of ids, provided
any page it appends is made of fresh, pairwise-distinct ids. -/
theorem loadExpenses_nodup (token : Option String) (res : Except Unit (List Expense))
    (s : FeedState) (h : (ids s.expenses).Nodup)
    (hf : ∀ data, res = .ok data → (ids data).Nodup ∧ ∀ i ∈ ids data, i ∉ ids s.expenses) :
    (ids (loadExpenses token res s).1.expenses).Nodup := by
  cases token with
  | none => exact h
  | some tok =>
    cases res with
    | error e =>
      by_cases hm : s.hasMore = true
      · simpa [loadExpenses, hm] using h
      · simp only [Bool.not_eq_true] at hm
        simpa [loadExpenses, hm] using h
    | ok data =>
      by_cases hm : s.hasMore = true
      · obtain ⟨hnd, hdisj⟩ := hf data rfl
        have : (ids (sortExpenses (s.expenses ++ data))).Nodup := by
          rw [nodup_ids_sortExpenses]
          have happ : ids (s.expenses ++ data) = ids s.expenses ++ ids data :=
            List.map_append _ _ _
          rw [happ]
          exact List.Nodup.append h hnd fun a ha hb => hdisj a hb ha
        simpa [loadExpenses, hm] using this
      · simp only [Bool.not_eq_true] at hm
        simpa [loadExpenses, hm] using h

/-- Replacing the matching entry in an update never changes the id sequence. -/
theorem ids_update_map (u : Expense) (l : List Expense) :
    ids (l.map fun exp => if exp._id = u._id then u else exp) = ids l := by
  simp only [ids, List.map_map]
  refine List.map_congr_left fun e _ => ?_
  by_cases hid : e._id = u._id
  · simp only [Function.comp, if_pos hid]
    exact hid.symm
  · simp only [Function.comp, if_neg hid]

/-- Every operation preserves distinctness of ids under `freshIds`. -/
theorem step_nodup (s : FeedState) (op : Op) (h : (ids s.expenses).Nodup)
    (hfresh : freshIds s op) : (ids (step s op).1.expenses).Nodup := by
  cases op with
  | load token res =>
    cases res with
    | ok data =>
      refine loadExpenses_nodup token (.ok data) s h fun d hd => ?_
      cases hd
      simpa [freshIds] using hfresh
    | error e => exact loadExpenses_nodup token (.error e) s h fun d hd => by cases hd
  | add token res =>
    cases token with
    | none => exact h
    | some tok =>
      cases res with
      | ok e =>
        have : (ids (sortExpenses (e :: s.expenses))).Nodup := by
          rw [nodup_ids_sortExpenses]
          exact List.nodup_cons.mpr ⟨hfresh, h⟩
        simpa [step, handleAddExpense] using this
      | error e => exact h
  | update token res =>
    cases token with
    | none => exact h
    | some tok =>
      cases res with
      | ok u =>
        have : (ids (sortExpenses (s.expenses.map fun exp =>
            if exp._id = u._id then u else exp))).Nodup := by
          rw [nodup_ids_sortExpenses, ids_update_map]
          exact h
        simpa [step, handleUpdateExpense] using this
      | error e => exact h
  | delete token expenseId res =>
    cases token with
    | none => exact h
    | some tok =>
      cases res with
      | ok u =>
        simp only [step, handleDeleteExpense, Option.isSome_some, if_pos]
        exact List.Nodup.sublist (List.Sublist.map _ (List.filter_sublist _)) h
      | error e => exact h
  | scroll nb token res =>
    by_cases hg : (nb && !s.isLoading && s.hasMore) = true
    · have hload : (ids (loadExpenses token res s).1.expenses).Nodup := by
        cases res with
        | ok data =>
          refine loadExpenses_nodup token (.ok data) s h fun d hd => ?_
          cases hd
          simpa [freshIds] using hfresh
        | error e => exact loadExpenses_nodup token (.error e) s h fun d hd => by cases hd
      simpa [step, handleScroll, hg] using hload
    · simp only [Bool.not_eq_true] at hg
      simpa [step, handleScroll, hg] using h

/-- Counterexample to C2 as stated: the code never deduplicates, so when two
successive fetched pages share a record (page 1 full, page 2 repeating the
first record of page 1 — as happens when rows shift between requests), the
resulting `items` holds the same id twice. -/
theorem nodup_ids_counterexample :
    ¬ (ids (runOps initialState
        [.load (some "t") (.ok tenPage),
         .load (some "t") (.ok [{ _id := "p0", description := "seed", amount := 100,
                                  category := "Seed", date := 1000 }])]).expenses).Nodup := by
  decide

/-- C2 amended: after every operation starting from the empty feed, `items`
contains no two entries with the same id, provided every fetched page carries
pairwise-distinct ids not already present and every successful add returns an
id not already present (`okTrace`). -/
theorem nodup_ids_of_fresh (ops : List Op) (hok : okTrace initialState ops) :
    (ids (runOps initialState ops).expenses).Nodup := by
  have general : ∀ (ops : List Op) (s : FeedState), (ids s.expenses).Nodup →
      okTrace s ops → (ids (runOps s ops).expenses).Nodup := by
    intro ops
    induction ops with
    | nil => intro s h _; exact h
    | cons op ops ih =>
      intro s h hok
      exact ih (step s op).1 (step_nodup s op h hok.1) hok.2
  exact general ops initialState (by simp [ids, initialState]) hok

/-- Witness for the amended C2: a short page load, an add and a delete with
fresh ids keep all ids distinct. -/
theorem nodup_ids_of_fresh_witness :
    (ids (runOps initialState
        [.load (some "t") (.ok [exA, exB]),
         .add (some "t") (.ok exC),
         .delete (some "t") "a1" (.ok ())]).expenses).Nodup :=
  nodup_ids_of_fresh
    [.load (some "t") (.ok [exA, exB]), .add (some "t") (.ok exC),
     .delete (some "t") "a1" (.ok ())] (by decide)

/-- C3: starting from the empty feed, after any sequence of operations —
page loads, adds, updates, deletes, scroll events, successful or failing —
`items` is sorted in descending order by date.  In particular it is sorted
after every successful page load, add and update, as the claim states. -/
theorem items_always_sorted : ∀ ops : List Op, sortedDesc (runOps initialState ops).expenses := by
  have general : ∀ (ops : List Op) (s : FeedState), sortedDesc s.expenses →
      sortedDesc (runOps s ops).expenses := by
    intro ops
    induction ops with
    | nil => intro s h; exact h
    | cons op ops ih => intro s h; exact ih (step s op).1 (step_sorted s op h)
  intro ops
  exact general ops initialState List.sorted_nil

/-- Witness for C4: a short first page exhausts the feed; afterwards an add
leaves it exhausted and a scroll event does nothing. -/
theorem exhausted_permanent_witness :
    (loadExpenses (some "t") (.ok [exA]) initialState).1.hasMore = false ∧
    (runOps { initialState with hasMore := false } [.add (some "t") (.ok exB)]).hasMore = false ∧
    handleScroll true (some "t") (.ok [exB]) { initialState with hasMore := false }
      = ({ initialState with hasMore := false }, emptyOutput) :=
  ⟨exhausted_permanent.1 "t" [exA] initialState (by decide),
   exhausted_permanent.2.1 { initialState with hasMore := false }
     [.add (some "t") (.ok exB)] rfl,
   exhausted_permanent.2.2 { initialState with hasMore := false } true (some "t")
     (.ok [exB]) rfl⟩

/-- Dedup membership: `[...new Set(xs)]` keeps exactly the elements of `xs`. -/
theorem mem_jsSetDedup (l : List String) (b : String) : b ∈ jsSetDedup l ↔ b ∈ l := by
  induction l using jsSetDedup.induct with
  | case1 => simp [jsSetDedup]
  | case2 a l ih =>
    by_cases hba : b = a
    · simp [jsSetDedup, hba]
    · rw [jsSetDedup, List.mem_cons, ih, List.mem_filter]
      simp [hba]

/-- Dedup distinctness: `[...new Set(xs)]` has no duplicates. -/
theorem nodup_jsSetDedup (l : List String) : (jsSetDedup l).Nodup := by
  induction l using jsSetDedup.induct with
  | case1 => simp [jsSetDedup]
  | case2 a l ih =>
    rw [jsSetDedup]
    refine List.nodup_cons.mpr ⟨?_, ih⟩
    rw [mem_jsSetDedup]
    simp [List.mem_filter]

/-- C8: `allCategories` is exactly the distinct category labels of `items`,
sorted, duplicate-free, and a pure function of `items` alone (equal `items`
give equal results; no state is touched — it is a plain function). -/
theorem derive_categories_spec :
    (∀ l : List Expense, List.Sorted (· ≤ ·) (allCategories l)) ∧
    (∀ l : List Expense, (allCategories l).Nodup) ∧
    (∀ (l : List Expense) (c : String),
      c ∈ allCategories l ↔ c ∈ l.map fun e => e.category) ∧
    (∀ s₁ s₂ : FeedState, s₁.expenses = s₂.expenses →
      allCategories s₁.expenses = allCategories s₂.expenses) := by
  refine ⟨fun l => ?_, fun l => ?_, fun l c => ?_, fun s₁ s₂ h => by rw [h]⟩
  · exact List.sorted_insertionSort (· ≤ ·) _
  · exact (List.perm_insertionSort (· ≤ ·) _).nodup_iff.mpr (nodup_jsSetDedup _)
  · rw [allCategories, List.mem_insertionSort, mem_jsSetDedup]

/-- Witness for C8: two states with the same `items` but different flags give
the same categories. -/
theorem derive_categories_spec_witness :
    allCategories (FeedState.mk [exA, exC] true 1 true).expenses
      = allCategories (FeedState.mk [exA, exC] false 7 false).expenses :=
  derive_categories_spec.2.2.2 (FeedState.mk [exA, exC] true 1 true)
    (FeedState.mk [exA, exC] false 7 false) rfl

/-- Inserting an element with the date `dd` into a list leaves the
subsequence of elements dated `dd` intact, with the new element in front:
`orderedInsert` walks past strictly greater dates only. -/
theorem filter_date_orderedInsert_eq (dd : Nat) (a : Expense) (l : List Expense)
    (h : a.date = dd) :
    ((List.orderedInsert dateGE a l).filter fun x => x.date == dd)
      = a :: l.filter fun x => x.date == dd := by
  induction l with
  | nil => simp [List.orderedInsert, h]
  | cons b l ih =>
    by_cases hr : dateGE a b
    · rw [List.orderedInsert_of_le _ l hr]
      simp [List.filter_cons, h]
    · have hstep : List.orderedInsert dateGE a (b :: l)
          = b :: List.orderedInsert dateGE a l := by
        simp [List.orderedInsert, hr]
      have hbd : (b.date == dd) = false := by
        simp only [dateGE, Nat.not_le] at hr
        simp only [beq_eq_false_iff_ne, ne_eq]
        omega
      rw [hstep]
      simp [List.filter_cons, hbd, ih]

/-- Inserting an element whose date is not `dd` leaves the subsequence of
elements dated `dd` unchanged. -/
theorem filter_date_orderedInsert_ne (dd : Nat) (a : Expense) (l : List Expense)
    (h : a.date ≠ dd) :
    ((List.orderedInsert dateGE a l).filter fun x => x.date == dd)
      = l.filter fun x => x.date == dd := by
  have had : (a.date == dd) = false := by simpa [beq_eq_false_iff_ne] using h
  induction l with
  | nil => simp [List.orderedInsert, had]
  | cons b l ih =>
    by_cases hr : dateGE a b
    · rw [List.orderedInsert_of_le _ l hr]
      simp [List.filter_cons, had]
    · have hstep : List.orderedInsert dateGE a (b :: l)
          = b :: List.orderedInsert dateGE a l := by
        simp [List.orderedInsert, hr]
      rw [hstep, List.filter_cons, List.filter_cons, ih]

/-- Stability of the sort on each date class: sorting never reorders entries
that share a date. -/
theorem filter_date_sortExpenses (dd : Nat) (l : List Expense) :
    ((sortExpenses l).filter fun x => x.date == dd) = l.filter fun x => x.date == dd := by
  induction l with
  | nil => rfl
  | cons a l ih =>
    have ih' : ((List.insertionSort dateGE l).filter fun x => x.date == dd)
        = l.filter fun x => x.date == dd := ih
    show ((List.orderedInsert dateGE a (List.insertionSort dateGE l)).filter
        fun x => x.date == dd) = _
    by_cases h : a.date = dd
    · rw [filter_date_orderedInsert_eq dd a _ h, ih', List.filter_cons]
      simp [h]
    · rw [filter_date_orderedInsert_ne dd a _ h, ih', List.filter_cons]
      simp [h]

/-- C10: tie-breaking among equal dates.  A successful add prepends the new
record before the stable sort, so among the entries sharing its date the new
record comes first; a successful load appends the fetched page before the
stable sort, so among the entries sharing any date the fetched ones come
after all existing ones, in fetched order. -/
theorem add_prepends_load_appends_on_ties :
    (∀ (tok : String) (e : Expense) (s : FeedState),
      ((handleAddExpense (some tok) (.ok e) s).1.expenses.filter
          fun x => x.date == e.date)
        = e :: (s.expenses.filter fun x => x.date == e.date)) ∧
    (∀ (tok : String) (data : List Expense) (s : FeedState) (dd : Nat),
      s.hasMore = true →
      ((loadExpenses (some tok) (.ok data) s).1.expenses.filter
          fun x => x.date == dd)
        = (s.expenses.filter fun x => x.date == dd)
            ++ (data.filter fun x => x.date == dd)) := by
  constructor
  · intro tok e s
    have heq : (handleAddExpense (some tok) (.ok e) s).1.expenses
        = sortExpenses (e :: s.expenses) := by simp [handleAddExpense]
    rw [heq, filter_date_sortExpenses, List.filter_cons]
    simp
  · intro tok data s dd hm
    have heq : (loadExpenses (some tok) (.ok data) s).1.expenses
        = sortExpenses (s.expenses ++ data) := by simp [loadExpenses, hm]
    rw [heq, filter_date_sortExpenses, List.filter_append]

/-- Witness for C10: `exA` and `exC` share a date; adding `exC` over `[exA]`
puts it first in the date class, loading `[exC]` over `[exA]` puts it last. -/
theorem add_prepends_load_appends_on_ties_witness :
    (((handleAddExpense (some "t") (.ok exC)
          { initialState with expenses := [exA] }).1.expenses.filter
        fun x => x.date == exC.date)
      = exC :: ([exA].filter fun x => x.date == exC.date)) ∧
    (((loadExpenses (some "t") (.ok [exC])
          { initialState with expenses := [exA] }).1.expenses.filter
        fun x => x.date == exC.date)
      = ([exA].filter fun x => x.date == exC.date)
          ++ ([exC].filter fun x => x.date == exC.date)) :=
  ⟨add_prepends_load_appends_on_ties.1 "t" exC { initialState with expenses := [exA] },
   add_prepends_load_appends_on_ties.2 "t" [exC] { initialState with expenses := [exA] }
     exC.date rfl⟩

end ExpenseFeed
